import Mathlib

/-
Formal model of the django-transaction-signals repository.

Two source variants are embedded:
  - the main module django_transaction_signals/__init__.py (functions in
    the DjTS namespace without a gist prefix), and
  - the gist variant transaction.py (functions gist_commit, gist_rollback).

The host framework's transaction semantics (Django's commit, rollback,
managed, dirty tracking) are out of scope; each wrapped original operation
is passed in as an opaque transformer of the two host flags the shim
consults, and every delegation to it is recorded in an event trace.
-/

set_option autoImplicit false

namespace DjTS

/-- Host transaction state: the two predicates the shim consults,
transaction.is_managed and transaction.is_dirty. -/
structure HostState where
  managed : Bool
  dirty : Bool
deriving DecidableEq

/-- Names of the wrapped original operations that take a passthrough
argument list, used to record delegations in the trace. -/
inductive OpName where
  | opCommit
  | opRollback
  | opCommitUnlessManaged
  | opRollbackUnlessManaged
deriving DecidableEq

/-- A callback handed to defer: cid identifies the python callable, args
the argument list defer received for it, effect its action on the host
flags when it runs, ret its return value (which defer discards). -/
structure Callback where
  cid : Nat
  args : List Nat
  effect : HostState → HostState
  ret : Nat

/-- A listener connected to a notification channel. plain is an ordinary
receiver passed to Signal.connect (strong is true when weak=False was
given); deferredCos is the f_deferred closure that defer builds, wrapped
by the host's commit_on_success decorator and connected with weak=False.
The decorator's own transaction bracketing is host-framework behaviour and
out of scope; invoking the wrapper runs the captured callback. -/
inductive Listener where
  | plain (lid : Nat) (strong : Bool) (effect : HostState → HostState)
  | deferredCos (strong : Bool) (cb : Callback)

/-- Identity of a listener, as recorded in trace events. -/
def Listener.ident : Listener → Nat
  | .plain lid _ _ => lid
  | .deferredCos _ cb => cb.cid

/-- The two notification channels of one thread scope record, class
ThreadSignals in both source variants. -/
structure ThreadSignals where
  post_commit : List Listener
  post_rollback : List Listener

/-- Observable events: a delegation to an original passthrough operation
with the forwarded arguments, the delegation to the original managed
operation with the flag value actually forwarded, an invocation of a
listener recording whether the calling thread's registry entry was still
present at that moment, and the raising of
BadlyBehavedTransactionSignalHandlerError. -/
inductive Event where
  | origCall (op : OpName) (args : List Nat)
  | origManagedCall (flag : Bool)
  | invoked (tid : Nat) (lid : Nat) (scopePresent : Bool)
  | bbError
deriving DecidableEq

/-- Whole system state: the host flags, the registry TransactionSignals
.signals mapping thread identity to its ThreadSignals record, the log of
executed deferred callbacks (cid and args), and the event trace. -/
structure SysState where
  host : HostState
  signals : List (Nat × ThreadSignals)
  executed : List (Nat × List Nat)
  trace : List Event

/-- Dictionary lookup on the registry, the self.signals[thread_ident]
access pattern. -/
def lookupTS (tid : Nat) : List (Nat × ThreadSignals) → Option ThreadSignals
  | [] => none
  | (k, v) :: rest => if k = tid then some v else lookupTS tid rest

/-- Dictionary deletion, del self.signals[thread_ident]. Python dict keys
are unique, so removing every binding of tid agrees with del on every
state a python run can reach. -/
def eraseTS (tid : Nat) : List (Nat × ThreadSignals) → List (Nat × ThreadSignals)
  | [] => []
  | (k, v) :: rest => if k = tid then eraseTS tid rest else (k, v) :: eraseTS tid rest

/-- In-place update of the record stored under tid, the effect of mutating
the shared ThreadSignals object obtained from the dict. -/
def setTS (tid : Nat) (ts : ThreadSignals) :
    List (Nat × ThreadSignals) → List (Nat × ThreadSignals)
  | [] => []
  | (k, v) :: rest =>
      if k = tid then (k, ts) :: setTS tid ts rest else (k, v) :: setTS tid ts rest

/-- TransactionSignals._has_signals for calling thread tid. -/
def hasSignals (tid : Nat) (s : SysState) : Bool :=
  (lookupTS tid s.signals).isSome

/-- The successful effect of TransactionSignals._remove_signals. -/
def erase_signals (tid : Nat) (s : SysState) : SysState :=
  { s with signals := eraseTS tid s.signals }

/-- TransactionSignals._remove_signals: asserts the calling thread's entry
is present (assertion failure modelled as none) and deletes it. -/
def remove_signals (tid : Nat) (s : SysState) : Option SysState :=
  if hasSignals tid s then some (erase_signals tid s) else none

/-- TransactionSignals._get_or_init_signals: return the calling thread's
record, creating a fresh one when absent. In the main module the assert in
_init_signals cannot fire on this path because absence was just checked;
the gist variant's _init_signals is guarded and has no assert. -/
def get_or_init_signals (tid : Nat) (s : SysState) : ThreadSignals × SysState :=
  match lookupTS tid s.signals with
  | some ts => (ts, s)
  | none => (⟨[], []⟩, { s with signals := (tid, ⟨[], []⟩) :: s.signals })

/-- Run a deferred callback: apply its effect to the host flags, log its
execution with its cid and args, and produce its return value. -/
def execCallback (cb : Callback) (s : SysState) : SysState × Nat :=
  ({ s with host := cb.effect s.host, executed := s.executed ++ [(cb.cid, cb.args)] },
   cb.ret)

/-- Invoke one listener during a broadcast on thread tid. The trace entry
records whether tid's registry entry is still present at the moment the
listener starts running, which is what the listener itself would see. -/
def invokeListener (tid : Nat) (s : SysState) (l : Listener) : SysState :=
  match l with
  | .plain lid _ eff =>
      { s with host := eff s.host,
               trace := s.trace ++ [Event.invoked tid lid (hasSignals tid s)] }
  | .deferredCos _ cb =>
      let s1 := (execCallback cb s).1
      { s1 with trace := s1.trace ++ [Event.invoked tid cb.cid (hasSignals tid s)] }

/-- Signal.send: invoke every connected listener in registration order. -/
def sendList (tid : Nat) : List Listener → SysState → SysState
  | [], s => s
  | l :: rest, s => sendList tid rest (invokeListener tid s l)

/-- TransactionSignals._send_post_commit of the main module: when the
calling thread has a registry entry, fetch it, delete it, send on its
post_commit channel, then raise BadlyBehavedTransactionSignalHandlerError
(recorded as a trace event) when the transaction is dirty after all
listeners ran. Without an entry it does nothing. -/
def send_post_commit (tid : Nat) (s : SysState) : SysState :=
  match lookupTS tid s.signals with
  | none => s
  | some ts =>
      let s1 := (remove_signals tid s).getD s
      let s2 := sendList tid ts.post_commit s1
      if s2.host.dirty then { s2 with trace := s2.trace ++ [Event.bbError] } else s2

/-- TransactionSignals._send_post_rollback of the main module, the
post_rollback counterpart of send_post_commit. -/
def send_post_rollback (tid : Nat) (s : SysState) : SysState :=
  match lookupTS tid s.signals with
  | none => s
  | some ts =>
      let s1 := (remove_signals tid s).getD s
      let s2 := sendList tid ts.post_rollback s1
      if s2.host.dirty then { s2 with trace := s2.trace ++ [Event.bbError] } else s2

/-- TransactionSignals._on_exit_without_update of the main module: clear
the calling thread's entry if present. -/
def on_exit_without_update (tid : Nat) (s : SysState) : SysState :=
  if hasSignals tid s then (remove_signals tid s).getD s else s

/-- Record a delegation to a wrapped original passthrough operation with
the argument list the wrapper received, applying its host effect. -/
def callOrig (op : OpName) (orig : List Nat → HostState → HostState)
    (args : List Nat) (s : SysState) : SysState :=
  { s with host := orig args s.host, trace := s.trace ++ [Event.origCall op args] }

/-- The patched transaction.managed of the main module. The flag is read
only from the keyword arguments, kwargs.get with default True, so the
positional argument list is ignored; to_commit is decided from the dirty
flag before delegating; the original managed is called with the extracted
flag; then either the post commit broadcast or the scope cleanup runs. -/
def managed (origm : Bool → HostState → HostState) (tid : Nat)
    (args : List Bool) (kwflag : Option Bool) (s : SysState) : SysState :=
  let flag := kwflag.getD true
  let toCommit := !flag && s.host.dirty
  let s1 := { s with host := origm flag s.host,
                     trace := s.trace ++ [Event.origManagedCall flag] }
  if toCommit then send_post_commit tid s1 else on_exit_without_update tid s1

/-- The patched transaction.commit_unless_managed of the main module:
delegate, then broadcast post commit when the transaction is not managed
afterwards. -/
def commit_unless_managed (orig : List Nat → HostState → HostState)
    (tid : Nat) (args : List Nat) (s : SysState) : SysState :=
  let s1 := callOrig OpName.opCommitUnlessManaged orig args s
  if !s1.host.managed then send_post_commit tid s1 else s1

/-- The patched transaction.rollback_unless_managed of the main module. -/
def rollback_unless_managed (orig : List Nat → HostState → HostState)
    (tid : Nat) (args : List Nat) (s : SysState) : SysState :=
  let s1 := callOrig OpName.opRollbackUnlessManaged orig args s
  if !s1.host.managed then send_post_rollback tid s1 else s1

/-- The patched transaction.commit of the main module: delegate once, then
broadcast post commit. -/
def commit (orig : List Nat → HostState → HostState)
    (tid : Nat) (args : List Nat) (s : SysState) : SysState :=
  send_post_commit tid (callOrig OpName.opCommit orig args s)

/-- The patched transaction.rollback of the main module: delegate once,
then broadcast post rollback. -/
def rollback (orig : List Nat → HostState → HostState)
    (tid : Nat) (args : List Nat) (s : SysState) : SysState :=
  send_post_rollback tid (callOrig OpName.opRollback orig args s)

/-- The defer helper of the main module. When the transaction is managed,
build f_deferred (the commit_on_success wrapped closure over the callback
and its arguments, the deferredCos constructor) and connect it to the
calling thread's post_commit channel with weak=False; the property access
transaction.signals.post_commit goes through _get_or_init_signals.
Otherwise run the callback immediately, discarding its return value. -/
def defer (cb : Callback) (tid : Nat) (s : SysState) : SysState :=
  if s.host.managed then
    let p := get_or_init_signals tid s
    { p.2 with
      signals :=
        setTS tid
          { p.1 with post_commit := p.1.post_commit ++ [Listener.deferredCos true cb] }
          p.2.signals }
  else
    (execCallback cb s).1

/-- The patched transaction.commit of the gist variant transaction.py:
delegate, then send on the calling thread's post_commit channel obtained
through the post_commit property (which creates the scope record if it is
absent and does not remove it), then delegate a second time. -/
def gist_commit (orig : List Nat → HostState → HostState)
    (tid : Nat) (args : List Nat) (s : SysState) : SysState :=
  let s1 := callOrig OpName.opCommit orig args s
  let p := get_or_init_signals tid s1
  let s2 := sendList tid p.1.post_commit p.2
  callOrig OpName.opCommit orig args s2

/-- The patched transaction.rollback of the gist variant transaction.py,
with the same double delegation around the post_rollback send. -/
def gist_rollback (orig : List Nat → HostState → HostState)
    (tid : Nat) (args : List Nat) (s : SysState) : SysState :=
  let s1 := callOrig OpName.opRollback orig args s
  let p := get_or_init_signals tid s1
  let s2 := sendList tid p.1.post_rollback p.2
  callOrig OpName.opRollback orig args s2

/-- The post_commit listener list of thread tid, empty when tid has no
scope record. -/
def pcOf (tid : Nat) (s : SysState) : List Listener :=
  ((lookupTS tid s.signals).getD ⟨[], []⟩).post_commit

/-- The post_rollback listener list of thread tid, empty when tid has no
scope record. -/
def prOf (tid : Nat) (s : SysState) : List Listener :=
  ((lookupTS tid s.signals).getD ⟨[], []⟩).post_rollback

/-- Number of logged executions of the callback with identity cid. -/
def countCid (cid : Nat) (xs : List (Nat × List Nat)) : Nat :=
  (xs.filter (fun p => p.1 == cid)).length

/-- Number of delegations to the original operation op in a trace. -/
def countOrig (op : OpName) (tr : List Event) : Nat :=
  (tr.filter (fun e =>
    match e with
    | Event.origCall o _ => decide (o = op)
    | _ => false)).length

/-- The execution log entries one listener invocation adds. -/
def execOf : Listener → List (Nat × List Nat)
  | .plain _ _ _ => []
  | .deferredCos _ cb => [(cb.cid, cb.args)]

/-- The execution log entries a whole send adds, in order. -/
def execsOf : List Listener → List (Nat × List Nat)
  | [] => []
  | l :: rest => execOf l ++ execsOf rest

/-- The invocation events a whole send adds when the scope presence flag
stays b throughout. -/
def invokedEventsOf (tid : Nat) (b : Bool) : List Listener → List Event
  | [] => []
  | l :: rest => Event.invoked tid l.ident b :: invokedEventsOf tid b rest

theorem lookupTS_eraseTS_self (tid : Nat) (m : List (Nat × ThreadSignals)) :
    lookupTS tid (eraseTS tid m) = none := by
  induction m with
  | nil => rfl
  | cons p rest ih =>
      obtain ⟨k, v⟩ := p
      by_cases h : k = tid
      · simp [eraseTS, h, ih]
      · simp [eraseTS, h, lookupTS, ih]

theorem lookupTS_eraseTS_ne (tid t : Nat) (m : List (Nat × ThreadSignals))
    (h : t ≠ tid) : lookupTS t (eraseTS tid m) = lookupTS t m := by
  induction m with
  | nil => rfl
  | cons p rest ih =>
      obtain ⟨k, v⟩ := p
      by_cases hk : k = tid
      · have hkt : ¬ k = t := by
          intro hc
          exact h (by rw [← hc]; exact hk)
        simp [eraseTS, hk, lookupTS, hkt, Ne.symm h, ih]
      · simp [eraseTS, hk, lookupTS, ih]

theorem lookupTS_setTS_self (tid : Nat) (ts : ThreadSignals)
    (m : List (Nat × ThreadSignals)) (h : (lookupTS tid m).isSome = true) :
    lookupTS tid (setTS tid ts m) = some ts := by
  induction m with
  | nil => simp [lookupTS] at h
  | cons p rest ih =>
      obtain ⟨k, v⟩ := p
      by_cases hk : k = tid
      · simp [setTS, hk, lookupTS]
      · simp [setTS, hk, lookupTS] at h ⊢
        exact ih h

theorem invokeListener_signals (tid : Nat) (s : SysState) (l : Listener) :
    (invokeListener tid s l).signals = s.signals := by
  cases l <;> rfl

theorem hasSignals_invokeListener (tid t : Nat) (s : SysState) (l : Listener) :
    hasSignals t (invokeListener tid s l) = hasSignals t s := by
  simp [hasSignals, invokeListener_signals]

theorem invokeListener_trace (tid : Nat) (s : SysState) (l : Listener) :
    (invokeListener tid s l).trace
      = s.trace ++ [Event.invoked tid l.ident (hasSignals tid s)] := by
  cases l <;> rfl

theorem invokeListener_executed (tid : Nat) (s : SysState) (l : Listener) :
    (invokeListener tid s l).executed = s.executed ++ execOf l := by
  cases l with
  | plain lid st eff => simp [invokeListener, execOf]
  | deferredCos st cb => rfl

theorem sendList_signals (tid : Nat) (L : List Listener) (s : SysState) :
    (sendList tid L s).signals = s.signals := by
  induction L generalizing s with
  | nil => rfl
  | cons l rest ih => rw [sendList, ih, invokeListener_signals]

theorem hasSignals_sendList (tid t : Nat) (L : List Listener) (s : SysState) :
    hasSignals t (sendList tid L s) = hasSignals t s := by
  simp [hasSignals, sendList_signals]

theorem sendList_trace (tid : Nat) (L : List Listener) (s : SysState) :
    (sendList tid L s).trace
      = s.trace ++ invokedEventsOf tid (hasSignals tid s) L := by
  induction L generalizing s with
  | nil => simp [sendList, invokedEventsOf]
  | cons l rest ih =>
      rw [sendList, ih, invokeListener_trace, hasSignals_invokeListener,
        invokedEventsOf]
      simp

theorem sendList_executed (tid : Nat) (L : List Listener) (s : SysState) :
    (sendList tid L s).executed = s.executed ++ execsOf L := by
  induction L generalizing s with
  | nil => simp [sendList, execsOf]
  | cons l rest ih =>
      rw [sendList, ih, invokeListener_executed, execsOf]
      simp

theorem mem_invokedEventsOf (tid : Nat) (b : Bool) (L : List Listener)
    (e : Event) (h : e ∈ invokedEventsOf tid b L) :
    ∃ l, l ∈ L ∧ e = Event.invoked tid l.ident b := by
  induction L with
  | nil => simp [invokedEventsOf] at h
  | cons l rest ih =>
      rw [invokedEventsOf] at h
      rcases List.mem_cons.mp h with h1 | h2
      · exact ⟨l, List.mem_cons_self l rest, h1⟩
      · obtain ⟨l', hl', he⟩ := ih h2
        exact ⟨l', List.mem_cons_of_mem l hl', he⟩

theorem mem_execsOf (L : List Listener) (p : Nat × List Nat)
    (h : p ∈ execsOf L) :
    ∃ l, l ∈ L ∧ ∃ st cb, l = Listener.deferredCos st cb ∧ p = (cb.cid, cb.args) := by
  induction L with
  | nil => simp [execsOf] at h
  | cons l rest ih =>
      rw [execsOf] at h
      rcases List.mem_append.mp h with h1 | h2
      · cases l with
        | plain lid st eff => simp [execOf] at h1
        | deferredCos st cb =>
            simp [execOf] at h1
            exact ⟨Listener.deferredCos st cb, List.mem_cons_self _ rest,
              st, cb, rfl, by simp [h1]⟩
      · obtain ⟨l', hl', hrest⟩ := ih h2
        exact ⟨l', List.mem_cons_of_mem l hl', hrest⟩

theorem execsOf_mem_deferred (L : List Listener) (st : Bool) (cb : Callback)
    (h : Listener.deferredCos st cb ∈ L) : (cb.cid, cb.args) ∈ execsOf L := by
  induction L with
  | nil => simp at h
  | cons l rest ih =>
      rw [execsOf]
      rcases List.mem_cons.mp h with h1 | h2
      · subst h1
        simp [execOf]
      · exact List.mem_append.mpr (Or.inr (ih h2))

theorem countCid_append (cid : Nat) (xs ys : List (Nat × List Nat)) :
    countCid cid (xs ++ ys) = countCid cid xs + countCid cid ys := by
  simp [countCid, List.filter_append]

theorem countCid_execsOf_zero (cid : Nat) (L : List Listener)
    (h : ∀ l ∈ L, Listener.ident l ≠ cid) : countCid cid (execsOf L) = 0 := by
  induction L with
  | nil => rfl
  | cons l rest ih =>
      rw [execsOf, countCid_append]
      have hrest : countCid cid (execsOf rest) = 0 :=
        ih (fun l' hl' => h l' (List.mem_cons_of_mem l hl'))
      have hl : Listener.ident l ≠ cid := h l (List.mem_cons_self l rest)
      cases l with
      | plain lid st eff =>
          have h0 : countCid cid (execOf (Listener.plain lid st eff)) = 0 := rfl
          rw [h0, hrest]
      | deferredCos st cb =>
          have hcb : cb.cid ≠ cid := hl
          have h0 : countCid cid (execOf (Listener.deferredCos st cb)) = 0 := by
            simp [execOf, countCid, beq_iff_eq, hcb]
          rw [h0, hrest]

theorem remove_getD_of_some (tid : Nat) (s : SysState) (ts : ThreadSignals)
    (h : lookupTS tid s.signals = some ts) :
    (remove_signals tid s).getD s = erase_signals tid s := by
  simp [remove_signals, hasSignals, h]

theorem remove_getD_of_has (tid : Nat) (s : SysState)
    (h : hasSignals tid s = true) :
    (remove_signals tid s).getD s = erase_signals tid s := by
  simp [remove_signals, h]

theorem hasSignals_erase_self (tid : Nat) (s : SysState) :
    hasSignals tid (erase_signals tid s) = false := by
  simp [hasSignals, erase_signals, lookupTS_eraseTS_self]

theorem hasSignals_false_lookup (tid : Nat) (s : SysState)
    (h : hasSignals tid s = false) : lookupTS tid s.signals = none := by
  rw [hasSignals] at h
  cases hl : lookupTS tid s.signals with
  | none => rfl
  | some ts => rw [hl] at h; simp at h

theorem send_post_commit_none (tid : Nat) (s : SysState)
    (h : lookupTS tid s.signals = none) : send_post_commit tid s = s := by
  simp [send_post_commit, h]

theorem send_post_rollback_none (tid : Nat) (s : SysState)
    (h : lookupTS tid s.signals = none) : send_post_rollback tid s = s := by
  simp [send_post_rollback, h]

theorem send_post_commit_signals (tid : Nat) (s : SysState) (ts : ThreadSignals)
    (h : lookupTS tid s.signals = some ts) :
    (send_post_commit tid s).signals = eraseTS tid s.signals := by
  rw [send_post_commit, h]
  simp only [remove_getD_of_some tid s ts h]
  cases hd : (sendList tid ts.post_commit (erase_signals tid s)).host.dirty <;>
    simp [hd, sendList_signals, erase_signals]

theorem send_post_rollback_signals (tid : Nat) (s : SysState) (ts : ThreadSignals)
    (h : lookupTS tid s.signals = some ts) :
    (send_post_rollback tid s).signals = eraseTS tid s.signals := by
  rw [send_post_rollback, h]
  simp only [remove_getD_of_some tid s ts h]
  cases hd : (sendList tid ts.post_rollback (erase_signals tid s)).host.dirty <;>
    simp [hd, sendList_signals, erase_signals]

theorem send_post_commit_clears (tid : Nat) (s : SysState) :
    hasSignals tid (send_post_commit tid s) = false := by
  cases hl : lookupTS tid s.signals with
  | none => rw [send_post_commit_none tid s hl, hasSignals, hl]; rfl
  | some ts =>
      rw [hasSignals, send_post_commit_signals tid s ts hl,
        lookupTS_eraseTS_self]
      rfl

theorem send_post_rollback_clears (tid : Nat) (s : SysState) :
    hasSignals tid (send_post_rollback tid s) = false := by
  cases hl : lookupTS tid s.signals with
  | none => rw [send_post_rollback_none tid s hl, hasSignals, hl]; rfl
  | some ts =>
      rw [hasSignals, send_post_rollback_signals tid s ts hl,
        lookupTS_eraseTS_self]
      rfl

theorem send_post_commit_trace (tid : Nat) (s : SysState) (ts : ThreadSignals)
    (h : lookupTS tid s.signals = some ts) :
    (send_post_commit tid s).trace
      = (s.trace ++ invokedEventsOf tid false ts.post_commit)
        ++ (if (sendList tid ts.post_commit (erase_signals tid s)).host.dirty
            then [Event.bbError] else []) := by
  rw [send_post_commit, h]
  simp only [remove_getD_of_some tid s ts h]
  have htr : (sendList tid ts.post_commit (erase_signals tid s)).trace
      = s.trace ++ invokedEventsOf tid false ts.post_commit := by
    rw [sendList_trace, hasSignals_erase_self]
    rfl
  cases hd : (sendList tid ts.post_commit (erase_signals tid s)).host.dirty <;>
    simp [hd, htr]

theorem send_post_rollback_trace (tid : Nat) (s : SysState) (ts : ThreadSignals)
    (h : lookupTS tid s.signals = some ts) :
    (send_post_rollback tid s).trace
      = (s.trace ++ invokedEventsOf tid false ts.post_rollback)
        ++ (if (sendList tid ts.post_rollback (erase_signals tid s)).host.dirty
            then [Event.bbError] else []) := by
  rw [send_post_rollback, h]
  simp only [remove_getD_of_some tid s ts h]
  have htr : (sendList tid ts.post_rollback (erase_signals tid s)).trace
      = s.trace ++ invokedEventsOf tid false ts.post_rollback := by
    rw [sendList_trace, hasSignals_erase_self]
    rfl
  cases hd : (sendList tid ts.post_rollback (erase_signals tid s)).host.dirty <;>
    simp [hd, htr]

theorem send_post_commit_executed (tid : Nat) (s : SysState) (ts : ThreadSignals)
    (h : lookupTS tid s.signals = some ts) :
    (send_post_commit tid s).executed = s.executed ++ execsOf ts.post_commit := by
  rw [send_post_commit, h]
  simp only [remove_getD_of_some tid s ts h]
  have hex : (sendList tid ts.post_commit (erase_signals tid s)).executed
      = s.executed ++ execsOf ts.post_commit := by
    rw [sendList_executed]; rfl
  cases hd : (sendList tid ts.post_commit (erase_signals tid s)).host.dirty <;>
    simp [hd, hex]

theorem send_post_rollback_executed (tid : Nat) (s : SysState) (ts : ThreadSignals)
    (h : lookupTS tid s.signals = some ts) :
    (send_post_rollback tid s).executed = s.executed ++ execsOf ts.post_rollback := by
  rw [send_post_rollback, h]
  simp only [remove_getD_of_some tid s ts h]
  have hex : (sendList tid ts.post_rollback (erase_signals tid s)).executed
      = s.executed ++ execsOf ts.post_rollback := by
    rw [sendList_executed]; rfl
  cases hd : (sendList tid ts.post_rollback (erase_signals tid s)).host.dirty <;>
    simp [hd, hex]

theorem on_exit_clears (tid : Nat) (s : SysState) :
    hasSignals tid (on_exit_without_update tid s) = false := by
  by_cases h : hasSignals tid s = true
  · rw [on_exit_without_update, h]
    simp only [if_true, remove_getD_of_has tid s h]
    exact hasSignals_erase_self tid s
  · have hf : hasSignals tid s = false := by
      cases hb : hasSignals tid s
      · rfl
      · exact absurd hb h
    rw [on_exit_without_update, hf]
    simpa using hf

theorem on_exit_trace (tid : Nat) (s : SysState) :
    (on_exit_without_update tid s).trace = s.trace := by
  by_cases h : hasSignals tid s = true
  · rw [on_exit_without_update, h]
    simp only [if_true, remove_getD_of_has tid s h]
    rfl
  · have hf : hasSignals tid s = false := by
      cases hb : hasSignals tid s
      · rfl
      · exact absurd hb h
    rw [on_exit_without_update, hf]
    simp

theorem on_exit_executed (tid : Nat) (s : SysState) :
    (on_exit_without_update tid s).executed = s.executed := by
  by_cases h : hasSignals tid s = true
  · rw [on_exit_without_update, h]
    simp only [if_true, remove_getD_of_has tid s h]
    rfl
  · have hf : hasSignals tid s = false := by
      cases hb : hasSignals tid s
      · rfl
      · exact absurd hb h
    rw [on_exit_without_update, hf]
    simp

/-- Identity effect on the host flags, used for concrete evaluations. -/
def effId : HostState → HostState := fun h => h

/-- Host effect of a listener that finalizes cleanly, leaving the
transaction not dirty. -/
def effClean : HostState → HostState := fun h => { h with dirty := false }

/-- Original passthrough operation that leaves the host flags unchanged. -/
def origKeep : List Nat → HostState → HostState := fun _ h => h

/-- Original managed operation that stores its flag argument into the
managed predicate. -/
def origMflag : Bool → HostState → HostState := fun f h => { h with managed := f }

/-- Concrete state with a live scope for thread 0 holding one post commit
listener with identity 7. -/
def sC1 : SysState :=
  { host := { managed := true, dirty := false },
    signals := [(0, { post_commit := [Listener.plain 7 true effId],
                      post_rollback := [] })],
    executed := [], trace := [] }

/-- C1 counterexample: in the gist variant the patched commit broadcasts
while the calling thread's registry entry is still present. On a state
whose thread 0 has a live scope with listener 7, the listener is invoked
with the scope recorded as present, and the entry still exists after the
call, so the claim as stated over every commit broadcast of the
repository is false. -/
theorem c1_gist_commit_counterexample :
    Event.invoked 0 7 true ∈ (gist_commit origKeep 0 [] sC1).trace ∧
    hasSignals 0 (gist_commit origKeep 0 [] sC1) = true := by decide

/-- C1 (amended to the main module): every post commit or post rollback
broadcast of django_transaction_signals/__init__.py removes the calling
thread's registry entry before any listener is invoked: after the call the
entry is gone, and every invocation event added by the broadcast records
that the scope was already absent when the listener ran, so no listener
can observe the scope or itself registered in it. -/
theorem c1_main_broadcast_clears_first (tid : Nat) (s : SysState) :
    hasSignals tid (send_post_commit tid s) = false ∧
    hasSignals tid (send_post_rollback tid s) = false ∧
    (∀ t l b, Event.invoked t l b ∈ (send_post_commit tid s).trace →
      Event.invoked t l b ∈ s.trace ∨ b = false) ∧
    (∀ t l b, Event.invoked t l b ∈ (send_post_rollback tid s).trace →
      Event.invoked t l b ∈ s.trace ∨ b = false) := by
  refine ⟨send_post_commit_clears tid s, send_post_rollback_clears tid s, ?_, ?_⟩
  · intro t l b hmem
    cases hl : lookupTS tid s.signals with
    | none =>
        rw [send_post_commit_none tid s hl] at hmem
        exact Or.inl hmem
    | some ts =>
        rw [send_post_commit_trace tid s ts hl] at hmem
        rcases List.mem_append.mp hmem with h1 | h2
        · rcases List.mem_append.mp h1 with h3 | h4
          · exact Or.inl h3
          · obtain ⟨l', _, he⟩ := mem_invokedEventsOf tid false ts.post_commit _ h4
            injection he with h5 h6 h7
            exact Or.inr h7
        · cases hd : (sendList tid ts.post_commit (erase_signals tid s)).host.dirty <;>
            rw [hd] at h2 <;> simp at h2
  · intro t l b hmem
    cases hl : lookupTS tid s.signals with
    | none =>
        rw [send_post_rollback_none tid s hl] at hmem
        exact Or.inl hmem
    | some ts =>
        rw [send_post_rollback_trace tid s ts hl] at hmem
        rcases List.mem_append.mp hmem with h1 | h2
        · rcases List.mem_append.mp h1 with h3 | h4
          · exact Or.inl h3
          · obtain ⟨l', _, he⟩ := mem_invokedEventsOf tid false ts.post_rollback _ h4
            injection he with h5 h6 h7
            exact Or.inr h7
        · cases hd : (sendList tid ts.post_rollback (erase_signals tid s)).host.dirty <;>
            rw [hd] at h2 <;> simp at h2

/-- C1 witness: concrete instance of the amended theorem. -/
theorem c1_clears_witness :
    hasSignals 0 (send_post_commit 0 sC1) = false :=
  (c1_main_broadcast_clears_first 0 sC1).1

/-- Concrete state with a live scope for thread 0 holding one listener on
each channel. -/
def sC2 : SysState :=
  { host := { managed := true, dirty := false },
    signals := [(0, { post_commit := [Listener.plain 7 true effId],
                      post_rollback := [Listener.plain 9 true effId] })],
    executed := [], trace := [] }

/-- C2 evaluated at the failing input: the gist variant's patched commit
and rollback delegate to the original operation twice, once before and
once after broadcasting, while the main module's patched commit and
rollback delegate exactly once. -/
theorem c2_gist_double_call :
    countOrig OpName.opCommit (gist_commit origKeep 0 [] sC2).trace = 2 ∧
    countOrig OpName.opRollback (gist_rollback origKeep 0 [] sC2).trace = 2 ∧
    countOrig OpName.opCommit (commit origKeep 0 [] sC2).trace = 1 ∧
    countOrig OpName.opRollback (rollback origKeep 0 [] sC2).trace = 1 := by decide

/-- C9: TransactionSignals._remove_signals invoked for a thread with no
registry entry fails (the defensive presence check, modelled as none);
invoked for a present entry it deletes exactly that entry, leaving every
other thread's entry unchanged. -/
theorem c9_remove_scope (tid : Nat) (s : SysState) :
    (hasSignals tid s = false → remove_signals tid s = none) ∧
    (hasSignals tid s = true →
      remove_signals tid s = some (erase_signals tid s) ∧
      hasSignals tid (erase_signals tid s) = false ∧
      (∀ t, t ≠ tid →
        lookupTS t (erase_signals tid s).signals = lookupTS t s.signals)) := by
  constructor
  · intro h
    simp [remove_signals, h]
  · intro h
    refine ⟨by simp [remove_signals, h], hasSignals_erase_self tid s, ?_⟩
    intro t ht
    exact lookupTS_eraseTS_ne tid t s.signals ht

/-- Concrete registry with one entry for thread 3. -/
def sC9 : SysState :=
  { host := { managed := true, dirty := false },
    signals := [(3, { post_commit := [], post_rollback := [] })],
    executed := [], trace := [] }

/-- C9 witness: removing an existing entry succeeds and deletes it. -/
theorem c9_remove_scope_witness :
    remove_signals 3 sC9 = some (erase_signals 3 sC9) :=
  ((c9_remove_scope 3 sC9).2 rfl).1

/-- C10: every call to the main module's patched managed that takes the
non-broadcast branch, in particular every call whose extracted flag is
True and every call on a clean transaction, delegates once and then clears
the calling thread's scope entry when present, so afterwards the thread
has no scope; no broadcast event is added. -/
theorem c10_managed_clears_scope (origm : Bool → HostState → HostState)
    (tid : Nat) (args : List Bool) (kwflag : Option Bool) (s : SysState)
    (h : kwflag.getD true = true ∨ s.host.dirty = false) :
    hasSignals tid (managed origm tid args kwflag s) = false ∧
    (managed origm tid args kwflag s).trace
      = s.trace ++ [Event.origManagedCall (kwflag.getD true)] := by
  have hred : managed origm tid args kwflag s
      = on_exit_without_update tid
          { s with host := origm (kwflag.getD true) s.host,
                   trace := s.trace ++ [Event.origManagedCall (kwflag.getD true)] } := by
    rcases h with hf | hd
    · simp [managed, hf]
    · simp [managed, hd]
  rw [hred]
  exact ⟨on_exit_clears tid _, by rw [on_exit_trace]⟩

/-- Concrete dirty state with a live scope for thread 0. -/
def sC10 : SysState :=
  { host := { managed := true, dirty := true },
    signals := [(0, { post_commit := [Listener.plain 7 true effId],
                      post_rollback := [] })],
    executed := [], trace := [] }

/-- C10 witness: entering managed mode with flag True clears the scope. -/
theorem c10_managed_clears_scope_witness :
    hasSignals 0 (managed origMflag 0 [] (some true) sC10) = false :=
  (c10_managed_clears_scope origMflag 0 [] (some true) sC10 (Or.inl rfl)).1

theorem bbError_not_mem_invokedEventsOf (tid : Nat) (b : Bool) (L : List Listener) :
    Event.bbError ∉ invokedEventsOf tid b L := by
  intro h
  obtain ⟨l, _, he⟩ := mem_invokedEventsOf tid b L _ h
  exact Event.noConfusion he

/-- C3: after a post commit or post rollback broadcast on a thread with a
live scope, BadlyBehavedTransactionSignalHandlerError is raised exactly
when the dirty predicate is true once all listeners have run; in
particular a listener that finalizes cleanly, leaving the transaction not
dirty, never triggers it. -/
theorem c3_bb_error_iff_dirty (tid : Nat) (s : SysState) (ts : ThreadSignals)
    (hl : lookupTS tid s.signals = some ts) (hnb : Event.bbError ∉ s.trace) :
    (Event.bbError ∈ (send_post_commit tid s).trace ↔
      (sendList tid ts.post_commit (erase_signals tid s)).host.dirty = true) ∧
    (Event.bbError ∈ (send_post_rollback tid s).trace ↔
      (sendList tid ts.post_rollback (erase_signals tid s)).host.dirty = true) := by
  constructor
  · rw [send_post_commit_trace tid s ts hl]
    cases hd : (sendList tid ts.post_commit (erase_signals tid s)).host.dirty <;>
      simp [hd, hnb, bbError_not_mem_invokedEventsOf]
  · rw [send_post_rollback_trace tid s ts hl]
    cases hd : (sendList tid ts.post_rollback (erase_signals tid s)).host.dirty <;>
      simp [hd, hnb, bbError_not_mem_invokedEventsOf]

/-- Concrete scope record whose listeners finalize cleanly. -/
def tsC3 : ThreadSignals :=
  { post_commit := [Listener.plain 5 true effClean],
    post_rollback := [Listener.plain 6 true effClean] }

/-- Concrete dirty state carrying tsC3 for thread 0. -/
def sC3 : SysState :=
  { host := { managed := true, dirty := true },
    signals := [(0, tsC3)], executed := [], trace := [] }

/-- C3 witness: concrete instance of the equivalence on the commit
channel. -/
theorem c3_bb_error_witness :
    Event.bbError ∈ (send_post_commit 0 sC3).trace ↔
      (sendList 0 tsC3.post_commit (erase_signals 0 sC3)).host.dirty = true :=
  (c3_bb_error_iff_dirty 0 sC3 tsC3 rfl (by decide)).1

/-- C5: defer called while no transaction is managed runs the callback
with the received arguments synchronously, before returning: the result is
exactly the state after executing the callback, the execution is logged
with the callback's arguments, the registry is untouched, and the
callback's return value is dropped (defer produces only the state, not the
value component of execCallback). -/
theorem c5_defer_no_txn (cb : Callback) (tid : Nat) (s : SysState)
    (hm : s.host.managed = false) :
    defer cb tid s = (execCallback cb s).1 ∧
    (defer cb tid s).executed = s.executed ++ [(cb.cid, cb.args)] ∧
    (defer cb tid s).signals = s.signals ∧
    (defer cb tid s).trace = s.trace := by
  have hd : defer cb tid s = (execCallback cb s).1 := by
    simp [defer, hm]
  refine ⟨hd, ?_, ?_, ?_⟩ <;> rw [hd] <;> rfl

/-- Concrete callback for the defer evaluations. -/
def cbC5 : Callback := { cid := 11, args := [3, 4], effect := effClean, ret := 5 }

/-- Concrete unmanaged state with an empty registry. -/
def sC5 : SysState :=
  { host := { managed := false, dirty := true },
    signals := [], executed := [], trace := [] }

/-- C5 witness: defer outside a transaction is the synchronous execution
of the callback. -/
theorem c5_defer_no_txn_witness :
    defer cbC5 0 sC5 = (execCallback cbC5 sC5).1 :=
  (c5_defer_no_txn cbC5 0 sC5 rfl).1

/-- Concrete dirty state with a live scope for thread 0, the failing input
for the positional managed call. -/
def sC6 : SysState :=
  { host := { managed := true, dirty := true },
    signals := [(0, { post_commit := [Listener.plain 7 true effId],
                      post_rollback := [] })],
    executed := [], trace := [] }

/-- C6 evaluated at the failing input: on a dirty transaction with a live
scope, calling the main module's patched managed with False passed
positionally is treated as flag True because the wrapper reads the flag
only from the keyword arguments: the original managed receives True, no
listener is invoked, and the scope is silently cleared, whereas the same
call with flag False passed as a keyword does broadcast to listener 7. -/
theorem c6_positional_flag_dropped :
    sC6.host.dirty = true ∧
    (managed origMflag 0 [false] none sC6).trace = [Event.origManagedCall true] ∧
    hasSignals 0 (managed origMflag 0 [false] none sC6) = false ∧
    (managed origMflag 0 [false] none sC6).host.managed = true ∧
    Event.invoked 0 7 false ∈ (managed origMflag 0 [] (some false) sC6).trace := by
  decide

/-- C7: the patched commit_unless_managed and rollback_unless_managed of
the main module trigger their broadcast exactly when the transaction is
not managed immediately after delegating to the original operation: the
result is the broadcast applied to the delegated state when the managed
predicate is false afterwards, the delegated state alone when it is true,
and for a thread with a live scope the scope is consumed exactly in the
broadcast case. -/
theorem c7_unless_managed_gate (orig : List Nat → HostState → HostState)
    (tid : Nat) (args : List Nat) (s : SysState) :
    ((orig args s.host).managed = false →
      commit_unless_managed orig tid args s
        = send_post_commit tid (callOrig OpName.opCommitUnlessManaged orig args s)) ∧
    ((orig args s.host).managed = true →
      commit_unless_managed orig tid args s
        = callOrig OpName.opCommitUnlessManaged orig args s) ∧
    ((orig args s.host).managed = false →
      rollback_unless_managed orig tid args s
        = send_post_rollback tid (callOrig OpName.opRollbackUnlessManaged orig args s)) ∧
    ((orig args s.host).managed = true →
      rollback_unless_managed orig tid args s
        = callOrig OpName.opRollbackUnlessManaged orig args s) ∧
    (hasSignals tid s = true →
      (hasSignals tid (commit_unless_managed orig tid args s) = false ↔
        (orig args s.host).managed = false)) ∧
    (hasSignals tid s = true →
      (hasSignals tid (rollback_unless_managed orig tid args s) = false ↔
        (orig args s.host).managed = false)) := by
  have hc1 : (orig args s.host).managed = false →
      commit_unless_managed orig tid args s
        = send_post_commit tid (callOrig OpName.opCommitUnlessManaged orig args s) := by
    intro h
    simp [commit_unless_managed, callOrig, h]
  have hc2 : (orig args s.host).managed = true →
      commit_unless_managed orig tid args s
        = callOrig OpName.opCommitUnlessManaged orig args s := by
    intro h
    simp [commit_unless_managed, callOrig, h]
  have hr1 : (orig args s.host).managed = false →
      rollback_unless_managed orig tid args s
        = send_post_rollback tid (callOrig OpName.opRollbackUnlessManaged orig args s) := by
    intro h
    simp [rollback_unless_managed, callOrig, h]
  have hr2 : (orig args s.host).managed = true →
      rollback_unless_managed orig tid args s
        = callOrig OpName.opRollbackUnlessManaged orig args s := by
    intro h
    simp [rollback_unless_managed, callOrig, h]
  refine ⟨hc1, hc2, hr1, hr2, ?_, ?_⟩
  · intro hs
    cases hma : (orig args s.host).managed
    · rw [hc1 hma, send_post_commit_clears]
    · rw [hc2 hma]
      have hcs : hasSignals tid (callOrig OpName.opCommitUnlessManaged orig args s)
          = hasSignals tid s := rfl
      rw [hcs, hs]
  · intro hs
    cases hma : (orig args s.host).managed
    · rw [hr1 hma, send_post_rollback_clears]
    · rw [hr2 hma]
      have hcs : hasSignals tid (callOrig OpName.opRollbackUnlessManaged orig args s)
          = hasSignals tid s := rfl
      rw [hcs, hs]

/-- Concrete unmanaged state with a live scope for thread 0. -/
def sC7 : SysState :=
  { host := { managed := false, dirty := false },
    signals := [(0, { post_commit := [Listener.plain 7 true effId],
                      post_rollback := [] })],
    executed := [], trace := [] }

/-- C7 witness: concrete instance of the broadcast gate equivalence. -/
theorem c7_unless_managed_gate_witness :
    hasSignals 0 (commit_unless_managed origKeep 0 [] sC7) = false ↔
      (origKeep [] sC7.host).managed = false :=
  (c7_unless_managed_gate origKeep 0 [] sC7).2.2.2.2.1 rfl

/-- C8: a broadcast performed on thread tidB reads only the registry entry
keyed by tidB: it adds no invocation event for a listener identity that is
not registered in tidB's record (so a listener registered only under
another thread A is never invoked), and it leaves every other thread's
registry entry unchanged. -/
theorem c8_thread_scoping (tidB lid : Nat) (s : SysState)
    (hpc : ∀ l ∈ pcOf tidB s, Listener.ident l ≠ lid)
    (hpr : ∀ l ∈ prOf tidB s, Listener.ident l ≠ lid) :
    (∀ t b, Event.invoked t lid b ∈ (send_post_commit tidB s).trace →
      Event.invoked t lid b ∈ s.trace) ∧
    (∀ t b, Event.invoked t lid b ∈ (send_post_rollback tidB s).trace →
      Event.invoked t lid b ∈ s.trace) ∧
    (∀ t, t ≠ tidB →
      lookupTS t (send_post_commit tidB s).signals = lookupTS t s.signals) ∧
    (∀ t, t ≠ tidB →
      lookupTS t (send_post_rollback tidB s).signals = lookupTS t s.signals) := by
  refine ⟨?_, ?_, ?_, ?_⟩
  · intro t b hmem
    cases hl : lookupTS tidB s.signals with
    | none =>
        rw [send_post_commit_none tidB s hl] at hmem
        exact hmem
    | some ts =>
        rw [send_post_commit_trace tidB s ts hl] at hmem
        rcases List.mem_append.mp hmem with h1 | h2
        · rcases List.mem_append.mp h1 with h3 | h4
          · exact h3
          · obtain ⟨l', hl', he⟩ := mem_invokedEventsOf tidB false ts.post_commit _ h4
            have hmempc : l' ∈ pcOf tidB s := by
              have hpcof : pcOf tidB s = ts.post_commit := by
                simp only [pcOf, hl, Option.getD_some]
              rw [hpcof]
              exact hl'
            injection he with h5 h6 h7
            exact absurd h6.symm (hpc l' hmempc)
        · cases hd : (sendList tidB ts.post_commit (erase_signals tidB s)).host.dirty <;>
            rw [hd] at h2 <;> simp at h2
  · intro t b hmem
    cases hl : lookupTS tidB s.signals with
    | none =>
        rw [send_post_rollback_none tidB s hl] at hmem
        exact hmem
    | some ts =>
        rw [send_post_rollback_trace tidB s ts hl] at hmem
        rcases List.mem_append.mp hmem with h1 | h2
        · rcases List.mem_append.mp h1 with h3 | h4
          · exact h3
          · obtain ⟨l', hl', he⟩ := mem_invokedEventsOf tidB false ts.post_rollback _ h4
            have hmempr : l' ∈ prOf tidB s := by
              have hprof : prOf tidB s = ts.post_rollback := by
                simp only [prOf, hl, Option.getD_some]
              rw [hprof]
              exact hl'
            injection he with h5 h6 h7
            exact absurd h6.symm (hpr l' hmempr)
        · cases hd : (sendList tidB ts.post_rollback (erase_signals tidB s)).host.dirty <;>
            rw [hd] at h2 <;> simp at h2
  · intro t ht
    cases hl : lookupTS tidB s.signals with
    | none => rw [send_post_commit_none tidB s hl]
    | some ts =>
        rw [send_post_commit_signals tidB s ts hl]
        exact lookupTS_eraseTS_ne tidB t s.signals ht
  · intro t ht
    cases hl : lookupTS tidB s.signals with
    | none => rw [send_post_rollback_none tidB s hl]
    | some ts =>
        rw [send_post_rollback_signals tidB s ts hl]
        exact lookupTS_eraseTS_ne tidB t s.signals ht

/-- Concrete registry with scope records for threads 0 and 1; listener 7
is registered only under thread 0. -/
def sC8 : SysState :=
  { host := { managed := true, dirty := false },
    signals := [(0, { post_commit := [Listener.plain 7 true effId],
                      post_rollback := [] }),
                (1, { post_commit := [Listener.plain 8 true effId],
                      post_rollback := [Listener.plain 9 true effId] })],
    executed := [], trace := [] }

/-- C8 witness: a commit broadcast on thread 1 leaves thread 0's registry
entry unchanged. -/
theorem c8_thread_scoping_witness :
    lookupTS 0 (send_post_commit 1 sC8).signals = lookupTS 0 sC8.signals :=
  (c8_thread_scoping 1 7 sC8 (by decide) (by decide)).2.2.1 0 (by decide)

/-- C4: defer called while a transaction is managed does not run its
callback: the execution log, trace and host flags are untouched, and the
calling thread's scope afterwards carries, at the end of its post commit
channel, the commit_on_success wrapped closure over the callback connected
with a strong reference (weak=False), while the post rollback channel is
unchanged. When that transaction later commits on the same thread, the
callback's execution is logged; when it instead rolls back, the callback
is not executed, the registration is discarded with the scope, and even a
subsequent commit on the thread does not execute it. -/
theorem c4_defer_in_txn (cb : Callback) (tid : Nat) (s : SysState)
    (hm : s.host.managed = true)
    (hpr : ∀ l ∈ prOf tid s, Listener.ident l ≠ cb.cid) :
    ((defer cb tid s).executed = s.executed ∧
     (defer cb tid s).trace = s.trace ∧
     (defer cb tid s).host = s.host) ∧
    lookupTS tid (defer cb tid s).signals
      = some { post_commit := pcOf tid s ++ [Listener.deferredCos true cb],
               post_rollback := prOf tid s } ∧
    (∀ orig cargs,
      (cb.cid, cb.args) ∈ (commit orig tid cargs (defer cb tid s)).executed) ∧
    (∀ orig rargs,
      countCid cb.cid (rollback orig tid rargs (defer cb tid s)).executed
        = countCid cb.cid s.executed ∧
      hasSignals tid (rollback orig tid rargs (defer cb tid s)) = false) ∧
    (∀ orig rargs orig2 cargs,
      countCid cb.cid
        (commit orig2 tid cargs (rollback orig tid rargs (defer cb tid s))).executed
        = countCid cb.cid s.executed) := by
  have hdef1 : (defer cb tid s).executed = s.executed ∧
      (defer cb tid s).trace = s.trace ∧
      (defer cb tid s).host = s.host := by
    cases hl : lookupTS tid s.signals with
    | some ts =>
        refine ⟨?_, ?_, ?_⟩ <;> simp [defer, hm, get_or_init_signals, hl]
    | none =>
        refine ⟨?_, ?_, ?_⟩ <;> simp [defer, hm, get_or_init_signals, hl]
  have hsig : lookupTS tid (defer cb tid s).signals
      = some { post_commit := pcOf tid s ++ [Listener.deferredCos true cb],
               post_rollback := prOf tid s } := by
    cases hl : lookupTS tid s.signals with
    | some ts =>
        have hsome : (lookupTS tid s.signals).isSome = true := by
          rw [hl]
          rfl
        have hpcof : pcOf tid s = ts.post_commit := by
          simp only [pcOf, hl, Option.getD_some]
        have hprof : prOf tid s = ts.post_rollback := by
          simp only [prOf, hl, Option.getD_some]
        rw [hpcof, hprof]
        simp only [defer, hm, if_true, get_or_init_signals, hl]
        exact lookupTS_setTS_self tid _ s.signals hsome
    | none =>
        have hpcof : pcOf tid s = [] := by
          simp only [pcOf, hl, Option.getD_none]
        have hprof : prOf tid s = [] := by
          simp only [prOf, hl, Option.getD_none]
        rw [hpcof, hprof]
        simp [defer, hm, get_or_init_signals, hl, setTS, lookupTS]
  have hcommit : ∀ orig cargs,
      (cb.cid, cb.args) ∈ (commit orig tid cargs (defer cb tid s)).executed := by
    intro orig cargs
    have hl2 : lookupTS tid
        (callOrig OpName.opCommit orig cargs (defer cb tid s)).signals
        = some { post_commit := pcOf tid s ++ [Listener.deferredCos true cb],
                 post_rollback := prOf tid s } := hsig
    rw [commit, send_post_commit_executed tid _ _ hl2]
    refine List.mem_append.mpr (Or.inr ?_)
    refine execsOf_mem_deferred _ true cb ?_
    exact List.mem_append.mpr (Or.inr (List.mem_singleton.mpr rfl))
  have hrollback : ∀ orig rargs,
      countCid cb.cid (rollback orig tid rargs (defer cb tid s)).executed
        = countCid cb.cid s.executed ∧
      hasSignals tid (rollback orig tid rargs (defer cb tid s)) = false := by
    intro orig rargs
    constructor
    · have hl2 : lookupTS tid
          (callOrig OpName.opRollback orig rargs (defer cb tid s)).signals
          = some { post_commit := pcOf tid s ++ [Listener.deferredCos true cb],
                   post_rollback := prOf tid s } := hsig
      rw [rollback, send_post_rollback_executed tid _ _ hl2, countCid_append]
      have h0 : countCid cb.cid (execsOf (prOf tid s)) = 0 :=
        countCid_execsOf_zero cb.cid (prOf tid s) hpr
      have hexec : (callOrig OpName.opRollback orig rargs (defer cb tid s)).executed
          = s.executed := hdef1.1
      rw [hexec, h0]
      exact Nat.add_zero _
    · rw [rollback]
      exact send_post_rollback_clears tid _
  refine ⟨hdef1, hsig, hcommit, hrollback, ?_⟩
  intro orig rargs orig2 cargs
  have hns : hasSignals tid (rollback orig tid rargs (defer cb tid s)) = false :=
    (hrollback orig rargs).2
  have hnone : lookupTS tid
      (callOrig OpName.opCommit orig2 cargs
        (rollback orig tid rargs (defer cb tid s))).signals = none :=
    hasSignals_false_lookup tid _ hns
  rw [commit, send_post_commit_none tid _ hnone]
  exact (hrollback orig rargs).1

/-- Concrete callback handed to defer inside a transaction. -/
def cbC4 : Callback := { cid := 42, args := [1, 2], effect := effId, ret := 0 }

/-- Concrete managed dirty state with a live scope for thread 0 whose
channels already hold unrelated listeners. -/
def sC4 : SysState :=
  { host := { managed := true, dirty := true },
    signals := [(0, { post_commit := [Listener.plain 7 true effClean],
                      post_rollback := [Listener.plain 9 true effId] })],
    executed := [], trace := [] }

/-- C4 witness: the deferred callback runs when the transaction commits. -/
theorem c4_defer_in_txn_witness :
    (42, [1, 2]) ∈ (commit origKeep 0 [] (defer cbC4 0 sC4)).executed :=
  (c4_defer_in_txn cbC4 0 sC4 rfl (by decide)).2.2.1 origKeep []

end DjTS
